import Mathlib

/-!
# Verification of the rdsa-utils PySpark log-parsing / cost-reporting engine

Shallow embedding of the pipeline-log analysis engine of the `rdsa-utils`
repository.  The report-construction layer is embedded from
`rdsa_utils/helpers/pyspark_log_parser/pyspark_log_report_template.ipynb`
(the Papermill notebook that builds the row table and the aggregate summary
table).  The parser / reconciler / cost-estimator layer
(`parser.py`, `ec2_pricing.py`) is not distributed with the sources at hand,
so those operations are modelled from the specification's own algorithm
descriptions; each such definition is marked `Modelled from the spec:`.

Numbers: epoch-millisecond timestamps are `Int`; scores and rates are `ℚ`
(the Python floats carry exact decimal values in all properties checked
here, so rational arithmetic is the faithful exact model).
-/

namespace RdsaUtils

/-! ## Data model of the report template's input

Papermill injects `logs_data`, a list of dicts.  The notebook reads
`x["log_metrics"]["Timestamp"]`, `x["log_metrics"].get("Pipeline Name")`
and `x["cost_metrics"]["costs"]["pipeline_cost"]`.  We model exactly the
keys the notebook touches; `pipeline_cost` is `Option ℚ` with `none`
standing for an absent key (a run whose score was not computable), on
which the Python subscript raises `KeyError`. -/

structure LogMetrics where
  Timestamp : Int
  PipelineName : Option String
  deriving DecidableEq

structure CostMetrics where
  pipeline_cost : Option ℚ
  deriving DecidableEq

structure LogEntry where
  log_metrics : LogMetrics
  cost_metrics : CostMetrics
  deriving DecidableEq

/-- One row of the processed DataFrame after
`df = df[["timestamp", "pipeline_score"]]`. -/
structure Row where
  timestamp : Int
  pipeline_score : ℚ
  deriving DecidableEq

/-- The column names the notebook keeps in the row table:
`df = df[["timestamp", "pipeline_score"]]` — the `pipeline_name`
column is computed two lines earlier and then dropped here. -/
def rowTableColumns : List String := ["timestamp", "pipeline_score"]

/-- `df["pipeline_score"] = df["cost_metrics"].apply(lambda x: x["costs"]["pipeline_cost"])`;
a missing `pipeline_cost` key raises `KeyError` in Python, modelled as
`Except.error`. -/
def extractScore (e : LogEntry) : Except String ℚ :=
  match e.cost_metrics.pipeline_cost with
  | some c => Except.ok c
  | none => Except.error "KeyError: pipeline_cost"

/-- Column extraction over the whole frame: pandas `.apply` evaluates the
lambda on every record and the first missing key aborts the cell. -/
def toRows : List LogEntry → Except String (List Row)
  | [] => Except.ok []
  | e :: rest =>
    match e.cost_metrics.pipeline_cost with
    | none => Except.error "KeyError: pipeline_cost"
    | some c =>
      (toRows rest).map (fun rs => ⟨e.log_metrics.Timestamp, c⟩ :: rs)

/-! ## Calendar bucketing

`df["timestamp"].dt.to_period(p)` for `p ∈ {W, M, Q, Y}`.  Timestamps are
epoch milliseconds (`pd.to_datetime(..., unit="ms")`).  We convert to days
since the epoch and then to a civil date with the standard proleptic
Gregorian algorithm; a pandas weekly period (`W`, i.e. `W-SUN`) is the
Monday-to-Sunday block containing the day, which coincides with the ISO
week block. -/

/-- Days since 1970-01-01 (floor division, as calendar conversion does). -/
def daysOf (ms : Int) : Int := Int.fdiv ms 86400000

/-- Civil `(year, month, day)` from days since the epoch
(proleptic Gregorian). -/
def civilFromDays (z : Int) : Int × Int × Int :=
  let z' := z + 719468
  let era := Int.fdiv z' 146097
  let doe := z' - era * 146097
  let yoe := (doe - doe / 1460 + doe / 36524 - doe / 146096) / 365
  let y := yoe + era * 400
  let doy := doe - (365 * yoe + yoe / 4 - yoe / 100)
  let mp := (5 * doy + 2) / 153
  let d := doy - (153 * mp + 2) / 5 + 1
  let m := mp + (if mp < 10 then 3 else -9)
  (y + (if m ≤ 2 then 1 else 0), m, d)

/-- Weekly period (`to_period("W")`): index of the Monday-to-Sunday block
containing the day (day 0 of the epoch was a Thursday). -/
def weekKey (ms : Int) : Int := Int.fdiv (daysOf ms + 3) 7

/-- Yearly period (`to_period("Y")`). -/
def yearKey (ms : Int) : Int := (civilFromDays (daysOf ms)).1

/-- Monthly period (`to_period("M")`). -/
def monthKey (ms : Int) : Int × Int :=
  let c := civilFromDays (daysOf ms)
  (c.1, c.2.1)

/-- Quarterly period (`to_period("Q")`). -/
def quarterKey (ms : Int) : Int × Int :=
  let c := civilFromDays (daysOf ms)
  (c.1, (c.2.1 - 1) / 3)

/-! ## Grouping and the summary table -/

/-- `df.groupby(k)["pipeline_score"].sum()`: one `(key, sum)` pair per
distinct key.  (pandas lists group keys sorted; the order of the pairs is
immaterial to every total computed from them, so first-occurrence order is
used here.) -/
def groupSums {κ : Type} [DecidableEq κ] (key : Row → κ) (rows : List Row) :
    List (κ × ℚ) :=
  ((rows.map key).dedup).map
    (fun k =>
      (k, ((rows.filter (fun r => decide (key r = k))).map Row.pipeline_score).sum))

/-- One figure of the summary table:
`weekly_cost["pipeline_score"].sum() if not weekly_cost.empty else 0` —
the grouped sums are summed again. -/
def periodTotal {κ : Type} [DecidableEq κ] (key : Row → κ) (rows : List Row) : ℚ :=
  let grouped := groupSums key rows
  if grouped = [] then 0 else (grouped.map Prod.snd).sum

/-- The notebook's `summary_table`: four rows, one per period kind, each
holding the re-summed grouped totals; built only when `df` is non-empty. -/
def summaryTable (rows : List Row) : List (String × ℚ) :=
  if rows = [] then []
  else
    [("Weekly", periodTotal (fun r => weekKey r.timestamp) rows),
     ("Monthly", periodTotal (fun r => monthKey r.timestamp) rows),
     ("Quarterly", periodTotal (fun r => quarterKey r.timestamp) rows),
     ("Yearly", periodTotal (fun r => yearKey r.timestamp) rows)]

/-! ## The report -/

structure Report where
  rows : List Row
  summary : List (String × ℚ)
  deriving DecidableEq

instance rowLeDecidable :
    DecidableRel (fun a b : Row => a.timestamp ≤ b.timestamp) :=
  fun a b => Int.decLe a.timestamp b.timestamp

/-- `df = df.sort_values(by="timestamp")`. -/
def sortRows (rows : List Row) : List Row :=
  rows.insertionSort (fun a b => a.timestamp ≤ b.timestamp)

/-- The whole notebook, cell by cell: the empty-input guard that raises
`ValueError`, the column extraction (which can raise `KeyError`), the sort
before plotting, and the summary table. -/
def buildReport (logs_data : List LogEntry) : Except String Report :=
  if logs_data = [] then
    Except.error "logs_data is empty. Ensure Papermill is passing correct data."
  else
    (toRows logs_data).map (fun rows =>
      let sorted := sortRows rows
      ⟨sorted, summaryTable sorted⟩)

/-! ## Helper lemmas on filtering and grouped sums -/

theorem sum_map_filter_split {α : Type} (p : α → Bool) (f : α → ℚ) (l : List α) :
    ((l.filter p).map f).sum + ((l.filter (fun a => !(p a))).map f).sum
      = (l.map f).sum := by
  induction l with
  | nil => simp
  | cons a t ih =>
    by_cases h : p a = true
    · simp [List.filter_cons, h]
      linarith [ih]
    · simp [List.filter_cons, h]
      linarith [ih]

theorem sum_over_keyList {α κ : Type} [DecidableEq κ] (key : α → κ) (f : α → ℚ) :
    ∀ ks : List κ, ks.Nodup → ∀ l : List α, (∀ a ∈ l, key a ∈ ks) →
      (ks.map (fun k => ((l.filter (fun a => decide (key a = k))).map f).sum)).sum
        = (l.map f).sum := by
  intro ks
  induction ks with
  | nil =>
    intro _ l hcov
    have hl : l = [] := by
      cases l with
      | nil => rfl
      | cons a t => exact absurd (hcov a (List.mem_cons_self a t)) (by simp)
    simp [hl]
  | cons k ks ih =>
    intro hnd l hcov
    have hknotin : k ∉ ks := (List.nodup_cons.mp hnd).1
    have hndtail : ks.Nodup := (List.nodup_cons.mp hnd).2
    rw [List.map_cons, List.sum_cons]
    -- restrict the tail keys to the sublist of entries whose key is not `k`
    have htail :
        (ks.map (fun k' => ((l.filter (fun a => decide (key a = k'))).map f).sum)).sum
          = ((l.filter (fun a => !(decide (key a = k)))).map f).sum := by
      have hcov' : ∀ a ∈ l.filter (fun a => !(decide (key a = k))), key a ∈ ks := by
        intro a ha
        have hmem := List.mem_filter.mp ha
        have hne : ¬ key a = k := by
          have hb := hmem.2
          simpa using hb
        rcases List.mem_cons.mp (hcov a hmem.1) with h | h
        · exact absurd h hne
        · exact h
      have hstep := ih hndtail (l.filter (fun a => !(decide (key a = k)))) hcov'
      rw [← hstep]
      congr 1
      apply List.map_congr_left
      intro k' hk'
      have hne : k' ≠ k := fun h => hknotin (h ▸ hk')
      have hfil :
          (l.filter (fun a => !(decide (key a = k)))).filter
              (fun a => decide (key a = k'))
            = l.filter (fun a => decide (key a = k')) := by
        rw [List.filter_filter]
        apply List.filter_congr
        intro a _
        by_cases hka : key a = k'
        · simp [hka, hne]
        · simp [hka]
      rw [hfil]
    rw [htail]
    exact sum_map_filter_split (fun a => decide (key a = k)) f l

/-- Summing the per-bucket grouped sums recovers the grand total. -/
theorem sum_groupSums {κ : Type} [DecidableEq κ] (key : Row → κ) (rows : List Row) :
    ((groupSums key rows).map Prod.snd).sum = (rows.map Row.pipeline_score).sum := by
  unfold groupSums
  rw [List.map_map]
  have :
      ((rows.map key).dedup.map
        ((fun p : κ × ℚ => p.2) ∘
          fun k =>
            (k, ((rows.filter (fun r => decide (key r = k))).map Row.pipeline_score).sum)))
        = (rows.map key).dedup.map
            (fun k => ((rows.filter (fun r => decide (key r = k))).map Row.pipeline_score).sum) := by
    rfl
  rw [this]
  exact sum_over_keyList key Row.pipeline_score (rows.map key).dedup
    (List.nodup_dedup _)
    rows
    (fun a ha => List.mem_dedup.mpr (List.mem_map_of_mem key ha))

theorem groupSums_ne_nil {κ : Type} [DecidableEq κ] (key : Row → κ)
    (rows : List Row) (h : rows ≠ []) : groupSums key rows ≠ [] := by
  unfold groupSums
  intro hcon
  have := List.map_eq_nil_iff.mp hcon
  have := (List.dedup_eq_nil _).mp this
  exact h (List.map_eq_nil_iff.mp this)

/-- Each summary figure equals the grand total of `pipeline_score`. -/
theorem periodTotal_eq_total {κ : Type} [DecidableEq κ] (key : Row → κ)
    (rows : List Row) (h : rows ≠ []) :
    periodTotal key rows = (rows.map Row.pipeline_score).sum := by
  unfold periodTotal
  simp only [groupSums_ne_nil key rows h, if_false]
  exact sum_groupSums key rows

/-! ## Successful extraction -/

theorem toRows_ok_of_complete (l : List LogEntry)
    (hc : ∀ e ∈ l, e.cost_metrics.pipeline_cost ≠ none) :
    ∃ rs : List Row, toRows l = Except.ok rs ∧ rs.length = l.length := by
  induction l with
  | nil => exact ⟨[], rfl, rfl⟩
  | cons e t ih =>
    obtain ⟨rs, hrs, hlen⟩ := ih (fun x hx => hc x (List.mem_cons_of_mem e hx))
    have hcost := hc e (List.mem_cons_self e t)
    cases hcand : e.cost_metrics.pipeline_cost with
    | none => exact absurd hcand hcost
    | some c =>
      refine ⟨⟨e.log_metrics.Timestamp, c⟩ :: rs, ?_, by simp [hlen]⟩
      simp [toRows, hcand, hrs, Except.map]

theorem toRows_error_of_notComputable (l : List LogEntry) (e : LogEntry)
    (he : e ∈ l) (hn : e.cost_metrics.pipeline_cost = none) :
    toRows l = Except.error "KeyError: pipeline_cost" := by
  induction l with
  | nil => cases he
  | cons a t ih =>
    rcases List.mem_cons.mp he with h | h
    · subst h
      simp [toRows, hn]
    · cases hcand : a.cost_metrics.pipeline_cost with
      | none => simp [toRows, hcand]
      | some c => simp [toRows, hcand, ih h, Except.map]

/-! ## Claim theorems: report construction -/

/-- Claim C1, counterexample: on the empty input the report template does
not return empty tables — it raises
`ValueError("logs_data is empty. Ensure Papermill is passing correct data.")`. -/
theorem buildReport_empty_raises :
    buildReport [] =
      Except.error "logs_data is empty. Ensure Papermill is passing correct data." := rfl

/-- Claim C1 (amended): on the empty input report construction raises a
`ValueError` rather than returning empty tables; for every non-empty input
whose entries all carry a computed `pipeline_cost`, report construction
succeeds. -/
theorem buildReport_ok_of_nonempty (l : List LogEntry) (hne : l ≠ [])
    (hc : ∀ e ∈ l, e.cost_metrics.pipeline_cost ≠ none) :
    (buildReport [] =
        Except.error "logs_data is empty. Ensure Papermill is passing correct data.")
      ∧ ∃ r : Report, buildReport l = Except.ok r := by
  refine ⟨rfl, ?_⟩
  obtain ⟨rs, hrs, -⟩ := toRows_ok_of_complete l hc
  refine ⟨⟨sortRows rs, summaryTable (sortRows rs)⟩, ?_⟩
  simp [buildReport, hne, hrs, Except.map]

/-- Witness for C1's amended theorem at a concrete one-entry input. -/
theorem buildReport_ok_of_nonempty_witness :
    ([(⟨⟨0, none⟩, ⟨some 1⟩⟩ : LogEntry)] ≠ [])
      ∧ ((buildReport [] =
            Except.error "logs_data is empty. Ensure Papermill is passing correct data.")
          ∧ ∃ r : Report, buildReport [(⟨⟨0, none⟩, ⟨some 1⟩⟩ : LogEntry)] = Except.ok r) :=
  ⟨by simp,
    buildReport_ok_of_nonempty [⟨⟨0, none⟩, ⟨some 1⟩⟩] (by simp) (by simp)⟩

/-- Claim C2, counterexample: an entry whose score is not computable
(`pipeline_cost` key absent) is not included with a null score and an
"incomplete" marker — the notebook's extraction raises `KeyError` and
report construction fails. -/
theorem notComputable_entry_fails :
    buildReport [⟨⟨0, none⟩, ⟨none⟩⟩] =
      Except.error "KeyError: pipeline_cost" := rfl

/-- Claim C2 (amended): every entry whose score is `NotComputable` (its
`cost_metrics` carries no `pipeline_cost`) causes report construction to
fail with a `KeyError`; no null-score row and no "incomplete" marker is
ever produced. -/
theorem buildReport_error_of_notComputable (l : List LogEntry) (e : LogEntry)
    (he : e ∈ l) (hn : e.cost_metrics.pipeline_cost = none) :
    buildReport l = Except.error "KeyError: pipeline_cost" := by
  have hne : l ≠ [] := by
    intro h
    subst h
    cases he
  simp [buildReport, hne, toRows_error_of_notComputable l e he hn, Except.map]

/-- Witness for C2's amended theorem at a concrete two-entry input. -/
theorem buildReport_error_of_notComputable_witness :
    ((⟨⟨5, none⟩, ⟨none⟩⟩ : LogEntry) ∈
        [(⟨⟨0, none⟩, ⟨some 1⟩⟩ : LogEntry), ⟨⟨5, none⟩, ⟨none⟩⟩])
      ∧ buildReport [(⟨⟨0, none⟩, ⟨some 1⟩⟩ : LogEntry), ⟨⟨5, none⟩, ⟨none⟩⟩]
          = Except.error "KeyError: pipeline_cost" :=
  ⟨by simp,
    buildReport_error_of_notComputable
      [⟨⟨0, none⟩, ⟨some 1⟩⟩, ⟨⟨5, none⟩, ⟨none⟩⟩]
      ⟨⟨5, none⟩, ⟨none⟩⟩ (by simp) rfl⟩

instance rowLeTotal : IsTotal Row (fun a b => a.timestamp ≤ b.timestamp) :=
  ⟨fun a b => Int.le_total a.timestamp b.timestamp⟩

instance rowLeTrans : IsTrans Row (fun a b => a.timestamp ≤ b.timestamp) :=
  ⟨fun _ _ _ h h' => le_trans h h'⟩

/-- Claim C3, counterexample: the emitted row table does not carry the
fields `{timestamp, pipeline_name, resource_estimate_score}` — the
notebook keeps only `["timestamp", "pipeline_score"]` and drops the
computed `pipeline_name` column. -/
theorem rowTable_drops_pipeline_name :
    rowTableColumns ≠ ["timestamp", "pipeline_name", "resource_estimate_score"]
      ∧ "pipeline_name" ∉ rowTableColumns := by
  constructor
  · intro h
    exact absurd (congrArg List.length h) (by simp [rowTableColumns])
  · intro h
    simp [rowTableColumns] at h

/-- Claim C3 (amended): for every reconciled, scored input the emitted row
table has one row per entry, carries exactly the columns
`["timestamp", "pipeline_score"]` (the score column; `pipeline_name` is
computed but dropped), and its rows are ordered ascending by timestamp. -/
theorem buildReport_rowTable_shape (l : List LogEntry) (hne : l ≠ [])
    (hc : ∀ e ∈ l, e.cost_metrics.pipeline_cost ≠ none) :
    ∃ r : Report, buildReport l = Except.ok r
      ∧ r.rows.length = l.length
      ∧ List.Sorted (fun a b : Row => a.timestamp ≤ b.timestamp) r.rows
      ∧ rowTableColumns = ["timestamp", "pipeline_score"] := by
  obtain ⟨rs, hrs, hlen⟩ := toRows_ok_of_complete l hc
  refine ⟨⟨sortRows rs, summaryTable (sortRows rs)⟩, ?_, ?_, ?_, rfl⟩
  · simp [buildReport, hne, hrs, Except.map]
  · calc (sortRows rs).length
        = rs.length := (List.perm_insertionSort _ rs).length_eq
      _ = l.length := hlen
  · exact List.sorted_insertionSort (fun a b : Row => a.timestamp ≤ b.timestamp) rs

/-- Witness for C3's amended theorem at a concrete two-entry input. -/
theorem buildReport_rowTable_shape_witness :
    ([(⟨⟨7, none⟩, ⟨some 2⟩⟩ : LogEntry), ⟨⟨3, some "p"⟩, ⟨some 1⟩⟩] ≠ [])
      ∧ ∃ r : Report,
          buildReport [(⟨⟨7, none⟩, ⟨some 2⟩⟩ : LogEntry), ⟨⟨3, some "p"⟩, ⟨some 1⟩⟩]
              = Except.ok r
            ∧ r.rows.length
                = [(⟨⟨7, none⟩, ⟨some 2⟩⟩ : LogEntry), ⟨⟨3, some "p"⟩, ⟨some 1⟩⟩].length
            ∧ List.Sorted (fun a b : Row => a.timestamp ≤ b.timestamp) r.rows
            ∧ rowTableColumns = ["timestamp", "pipeline_score"] :=
  ⟨by simp,
    buildReport_rowTable_shape
      [⟨⟨7, none⟩, ⟨some 2⟩⟩, ⟨⟨3, some "p"⟩, ⟨some 1⟩⟩] (by simp) (by simp)⟩

theorem dedup_map_const {α β : Type} [DecidableEq β] :
    ∀ (l : List α) (y : β), l ≠ [] → (l.map (fun _ => y)).dedup = [y] := by
  intro l y
  induction l with
  | nil => intro h; exact absurd rfl h
  | cons a t ih =>
    intro _
    cases t with
    | nil => simp
    | cons b t' =>
      have ihy := ih (by simp)
      rw [List.map_cons, List.dedup_cons_of_mem (by simp)]
      exact ihy

/-- Claim C4: when all entries start in one calendar year and span at
least two distinct ISO weeks, the weekly bucket totals sum to the yearly
bucket total of that year. -/
theorem weekly_totals_sum_to_yearly (rows : List Row) (y : Int) (hne : rows ≠ [])
    (hy : ∀ r ∈ rows, yearKey r.timestamp = y)
    (_hw : ∃ r ∈ rows, ∃ r' ∈ rows, weekKey r.timestamp ≠ weekKey r'.timestamp) :
    ((groupSums (fun r => weekKey r.timestamp) rows).map Prod.snd).sum
      = ((groupSums (fun r => yearKey r.timestamp) rows).filter
          (fun p => decide (p.1 = y))).foldr (fun p acc => p.2 + acc) 0 := by
  -- the yearly grouping degenerates to the single bucket `y`
  have hmapy : rows.map (fun r => yearKey r.timestamp) = rows.map (fun _ => y) :=
    List.map_congr_left (fun r hr => hy r hr)
  have hdedup : (rows.map (fun r => yearKey r.timestamp)).dedup = [y] := by
    rw [hmapy]
    exact dedup_map_const rows y hne
  have hfilterall : rows.filter (fun r => decide (yearKey r.timestamp = y)) = rows :=
    List.filter_eq_self.mpr (fun r hr => by simp [hy r hr])
  have hgy : groupSums (fun r => yearKey r.timestamp) rows
      = [(y, (rows.map Row.pipeline_score).sum)] := by
    unfold groupSums
    rw [hdedup]
    simp [hfilterall]
  rw [hgy]
  simp
  exact sum_groupSums (fun r => weekKey r.timestamp) rows

/-- Witness for C4 at two entries one week apart in January 2024. -/
theorem weekly_totals_sum_to_yearly_witness :
    (([⟨1704067200000, 3⟩, ⟨1704672000000, 5⟩] : List Row) ≠ [])
      ∧ (∀ r ∈ ([⟨1704067200000, 3⟩, ⟨1704672000000, 5⟩] : List Row),
          yearKey r.timestamp = 2024)
      ∧ (∃ r ∈ ([⟨1704067200000, 3⟩, ⟨1704672000000, 5⟩] : List Row),
          ∃ r' ∈ ([⟨1704067200000, 3⟩, ⟨1704672000000, 5⟩] : List Row),
            weekKey r.timestamp ≠ weekKey r'.timestamp)
      ∧ ((groupSums (fun r => weekKey r.timestamp)
            ([⟨1704067200000, 3⟩, ⟨1704672000000, 5⟩] : List Row)).map Prod.snd).sum
          = ((groupSums (fun r => yearKey r.timestamp)
              ([⟨1704067200000, 3⟩, ⟨1704672000000, 5⟩] : List Row)).filter
                (fun p => decide (p.1 = 2024))).foldr (fun p acc => p.2 + acc) 0 :=
  ⟨by simp, by decide, by decide,
    weekly_totals_sum_to_yearly [⟨1704067200000, 3⟩, ⟨1704672000000, 5⟩] 2024
      (by simp) (by decide) (by decide)⟩

/-- Claim C10: for every non-empty input, each of the four summary-table
figures (Weekly, Monthly, Quarterly, Yearly) re-sums the per-bucket
grouped sums and therefore equals the grand total of `pipeline_score`;
the emitted summary holds exactly these four period-kind rows and no
per-bucket rows. -/
theorem summaryTable_totals_eq_grand_total (rows : List Row) (hne : rows ≠ []) :
    summaryTable rows =
      [("Weekly", (rows.map Row.pipeline_score).sum),
       ("Monthly", (rows.map Row.pipeline_score).sum),
       ("Quarterly", (rows.map Row.pipeline_score).sum),
       ("Yearly", (rows.map Row.pipeline_score).sum)] := by
  unfold summaryTable
  rw [if_neg hne]
  rw [periodTotal_eq_total _ rows hne, periodTotal_eq_total _ rows hne,
    periodTotal_eq_total _ rows hne, periodTotal_eq_total _ rows hne]

/-- Witness for C10 at a concrete two-entry input. -/
theorem summaryTable_totals_eq_grand_total_witness :
    (([⟨1704067200000, 3⟩, ⟨1704672000000, 5⟩] : List Row) ≠ [])
      ∧ summaryTable ([⟨1704067200000, 3⟩, ⟨1704672000000, 5⟩] : List Row)
          = [("Weekly", 8), ("Monthly", 8), ("Quarterly", 8), ("Yearly", 8)] :=
  ⟨by simp,
    by
      rw [summaryTable_totals_eq_grand_total [⟨1704067200000, 3⟩, ⟨1704672000000, 5⟩]
        (by simp)]
      norm_num⟩

/-! ## Spec-modelled layer: parser, cost estimator, reconciler

The Python module `rdsa_utils/helpers/pyspark_log_parser/` (`parser.py`,
`ec2_pricing.py`, `report.py`) is not among the sources at hand — only its
report-template notebook and its methodology document are.  The
definitions below are therefore modelled from the specification (§4.2,
§4.3, §4.4 and the methodology document's Calculation section). -/

/-- Completeness of a parsed run (spec §3). -/
inductive Completeness where
  | Complete
  | Incomplete
  deriving DecidableEq

/-- Per-run structured metrics (spec §3 data model). -/
structure MetricsRecord where
  app_id : String
  app_name : String
  start_ts : Int
  end_ts : Option Int
  executor_cores : Nat
  executor_memory_bytes : Nat
  max_executors : Nat
  dynamic_allocation_enabled : Bool
  completeness : Completeness
  deriving DecidableEq

/-! ### Memory-size parsing (claim C7) -/

/-- Modelled from the spec: multiplier of a case-insensitive memory unit
suffix, base 1024 (`parser.py` is missing from the sources). -/
def suffixMult (c : Char) : Option Nat :=
  if c = 'k' ∨ c = 'K' then some 1024
  else if c = 'm' ∨ c = 'M' then some (1024 ^ 2)
  else if c = 'g' ∨ c = 'G' then some (1024 ^ 3)
  else if c = 't' ∨ c = 'T' then some (1024 ^ 4)
  else none

/-- Decimal value of a non-empty all-digit character list. -/
def digitsToNat? (cs : List Char) : Option Nat :=
  if cs = [] then none
  else if cs.all Char.isDigit then
    some (cs.foldl (fun n c => 10 * n + (c.toNat - 48)) 0)
  else none

/-- Modelled from the spec: memory size strings parse with case-insensitive
unit suffixes `{k,m,g,t}` (base 1024) and default to raw bytes when no
suffix is present; an unparseable value yields `none` (treated as absent
and defaulted to zero for scoring). -/
def parseMem (cs : List Char) : Option Nat :=
  match cs.getLast? with
  | none => none
  | some c =>
    match suffixMult c with
    | some mult => (digitsToNat? cs.dropLast).map (· * mult)
    | none => digitsToNat? cs

/-- Memory-size parser on strings, via the character list. -/
def parseMemoryString (s : String) : Option Nat := parseMem s.data

theorem suffixMult_of_digit (c : Char) (h : c.isDigit = true) :
    suffixMult c = none := by
  unfold suffixMult
  have h1 : ¬(c = 'k' ∨ c = 'K') := by
    rintro (rfl | rfl) <;> simp [Char.isDigit] at h
  have h2 : ¬(c = 'm' ∨ c = 'M') := by
    rintro (rfl | rfl) <;> simp [Char.isDigit] at h
  have h3 : ¬(c = 'g' ∨ c = 'G') := by
    rintro (rfl | rfl) <;> simp [Char.isDigit] at h
  have h4 : ¬(c = 't' ∨ c = 'T') := by
    rintro (rfl | rfl) <;> simp [Char.isDigit] at h
  simp [h1, h2, h3, h4]

/-- Claim C7: every numeric string followed by a `{k,m,g,t}` suffix (any
case) parses to its value times the corresponding power of 1024, every
suffixless numeric string parses to raw bytes, and in particular
`"4g"`, `"512m"` and `"1024"` parse to `4×1024³`, `512×1024²` and `1024`
bytes. -/
theorem parseMem_spec (cs : List Char) (v : Nat) (c : Char) (mult : Nat)
    (hv : digitsToNat? cs = some v) (hc : suffixMult c = some mult) :
    (parseMem (cs ++ [c]) = some (v * mult)
        ∧ parseMem cs = some v)
      ∧ parseMemoryString "4g" = some (4 * 1024 ^ 3)
      ∧ parseMemoryString "512m" = some (512 * 1024 ^ 2)
      ∧ parseMemoryString "1024" = some 1024 := by
  refine ⟨⟨?_, ?_⟩, by decide, by decide, by decide⟩
  · unfold parseMem
    rw [List.getLast?_concat, List.dropLast_concat]
    simp [hc, hv]
  · have hne : cs ≠ [] := by
      intro h
      rw [h] at hv
      simp [digitsToNat?] at hv
    have hdig : cs.all Char.isDigit = true := by
      by_cases h : cs.all Char.isDigit = true
      · exact h
      · unfold digitsToNat? at hv
        simp [hne, h] at hv
    obtain ⟨last, hlast⟩ := List.getLast?_isSome.mpr hne |> Option.isSome_iff_exists.mp
    have hlastdig : last.isDigit = true := by
      have hmem : last ∈ cs := List.mem_of_mem_getLast? hlast
      exact List.all_eq_true.mp hdig last hmem
    unfold parseMem
    rw [hlast]
    simp [suffixMult_of_digit last hlastdig, hv]

/-- Witness for C7 at `cs = "256"`, `c = 'K'`. -/
theorem parseMem_spec_witness :
    (digitsToNat? ['2', '5', '6'] = some 256
        ∧ suffixMult 'K' = some 1024)
      ∧ ((parseMem (['2', '5', '6'] ++ ['K']) = some (256 * 1024)
            ∧ parseMem ['2', '5', '6'] = some 256)
          ∧ parseMemoryString "4g" = some (4 * 1024 ^ 3)
          ∧ parseMemoryString "512m" = some (512 * 1024 ^ 2)
          ∧ parseMemoryString "1024" = some 1024) :=
  ⟨⟨by decide, by decide⟩,
    parseMem_spec ['2', '5', '6'] 256 'K' 1024 (by decide) (by decide)⟩

/-! ### Event-log parsing (claim C9) -/

/-- Modelled from the spec: one raw event record — a closed set of
recognized kinds (`ApplicationStart`, `ApplicationEnd`,
`EnvironmentUpdate`), unknown kinds, and malformed lines (spec §4.2;
`parser.py` is missing from the sources). -/
inductive RawEvent where
  | appStart (app_id : String) (app_name : String) (ts : Int)
  | appEnd (ts : Int)
  | envUpdate (props : List (String × String))
  | unrecognized (kind : String)
  | malformed
  deriving DecidableEq

/-- First value bound to a property key in an event's property map. -/
def lookupProp (props : List (String × String)) (k : String) : Option String :=
  (props.find? (fun p => p.1 == k)).map Prod.snd

/-- Modelled from the spec: extraction of the fixed, named set of resource
properties from a configuration event; numeric properties parse as
integers and memory sizes via `parseMem`, keeping the current value
(initially the documented default) when absent or unparseable. -/
def applyEnv (m : MetricsRecord) (props : List (String × String)) : MetricsRecord :=
  { m with
    executor_cores :=
      match lookupProp props "spark.executor.cores" with
      | some s => (digitsToNat? s.data).getD m.executor_cores
      | none => m.executor_cores
    max_executors :=
      match lookupProp props "spark.dynamicAllocation.maxExecutors" with
      | some s => (digitsToNat? s.data).getD m.max_executors
      | none => m.max_executors
    executor_memory_bytes :=
      match lookupProp props "spark.executor.memory" with
      | some s => (parseMem s.data).getD m.executor_memory_bytes
      | none => m.executor_memory_bytes
    dynamic_allocation_enabled :=
      match lookupProp props "spark.dynamicAllocation.enabled" with
      | some s => s == "true"
      | none => m.dynamic_allocation_enabled }

/-- Modelled from the spec: the degenerate record before any event is
seen — documented defaults `executor_cores = 1`, `max_executors = 1`,
memory `0`, `Incomplete`. -/
def initRecord : MetricsRecord :=
  ⟨"", "", 0, none, 1, 0, 1, false, Completeness.Incomplete⟩

/-- Modelled from the spec: sequential dispatch on one event; unknown kinds
are ignored, malformed lines are skipped and counted. -/
def parseStep (acc : MetricsRecord × Nat) (ev : RawEvent) : MetricsRecord × Nat :=
  match ev with
  | RawEvent.appStart i n ts =>
    ({ acc.1 with app_id := i, app_name := n, start_ts := ts }, acc.2)
  | RawEvent.appEnd ts =>
    ({ acc.1 with end_ts := some ts, completeness := Completeness.Complete }, acc.2)
  | RawEvent.envUpdate props => (applyEnv acc.1 props, acc.2)
  | RawEvent.unrecognized _ => acc
  | RawEvent.malformed => (acc.1, acc.2 + 1)

/-- Modelled from the spec: `parse_pyspark_logs` — scan the event sequence
once and produce one `MetricsRecord` plus the count of skipped lines. -/
def parsePysparkLogs (events : List RawEvent) : MetricsRecord × Nat :=
  events.foldl parseStep (initRecord, 0)

/-- Claim C9: parsing is a pure function of input content — two parses of
identical raw input yield bit-identical `MetricsRecord`s, field by field
(`app_id`, `app_name`, `start_ts`, `end_ts`, resource fields,
completeness), and the same skipped count. -/
theorem parsePysparkLogs_deterministic (ev₁ ev₂ : List RawEvent) (h : ev₁ = ev₂) :
    parsePysparkLogs ev₁ = parsePysparkLogs ev₂
      ∧ (parsePysparkLogs ev₁).1.app_id = (parsePysparkLogs ev₂).1.app_id
      ∧ (parsePysparkLogs ev₁).1.app_name = (parsePysparkLogs ev₂).1.app_name
      ∧ (parsePysparkLogs ev₁).1.start_ts = (parsePysparkLogs ev₂).1.start_ts
      ∧ (parsePysparkLogs ev₁).1.end_ts = (parsePysparkLogs ev₂).1.end_ts
      ∧ (parsePysparkLogs ev₁).1.executor_cores = (parsePysparkLogs ev₂).1.executor_cores
      ∧ (parsePysparkLogs ev₁).1.executor_memory_bytes
          = (parsePysparkLogs ev₂).1.executor_memory_bytes
      ∧ (parsePysparkLogs ev₁).1.max_executors = (parsePysparkLogs ev₂).1.max_executors
      ∧ (parsePysparkLogs ev₁).1.completeness = (parsePysparkLogs ev₂).1.completeness
      ∧ (parsePysparkLogs ev₁).2 = (parsePysparkLogs ev₂).2 := by
  subst h
  exact ⟨rfl, rfl, rfl, rfl, rfl, rfl, rfl, rfl, rfl, rfl⟩

/-- Witness for C9 at a concrete log with a malformed line between the
boundary events. -/
theorem parsePysparkLogs_deterministic_witness :
    ([RawEvent.appStart "a-1" "p" 100, RawEvent.malformed, RawEvent.appEnd 200]
        = [RawEvent.appStart "a-1" "p" 100, RawEvent.malformed, RawEvent.appEnd 200])
      ∧ parsePysparkLogs
            [RawEvent.appStart "a-1" "p" 100, RawEvent.malformed, RawEvent.appEnd 200]
          = parsePysparkLogs
            [RawEvent.appStart "a-1" "p" 100, RawEvent.malformed, RawEvent.appEnd 200] :=
  ⟨rfl,
    (parsePysparkLogs_deterministic
      [RawEvent.appStart "a-1" "p" 100, RawEvent.malformed, RawEvent.appEnd 200]
      [RawEvent.appStart "a-1" "p" 100, RawEvent.malformed, RawEvent.appEnd 200]
      rfl).1⟩

/-! ### Cost estimation (claims C5 and C8) -/

/-- Provenance of the rate table (spec §3). -/
inductive RateSource where
  | Static
  | Live
  | StaleFallback
  deriving DecidableEq

/-- One rate-table entry (spec §4.4 / §6 pricing boundary). -/
structure RateEntry where
  vcpu_rate : ℚ
  memory_rate : ℚ
  deriving DecidableEq

/-- Score plus breakdown (spec §3). -/
structure ResourceEstimateScore where
  score : ℚ
  vcpu_hours : ℚ
  memory_gb_hours : ℚ
  rate_source : RateSource
  deriving DecidableEq

/-- Modelled from the spec: `calculate_pipeline_cost` (`ec2_pricing.py` is
missing from the sources).  `duration_hours = (end_ts − start_ts) / 3600`;
`vcpu_hours = max_executors × executor_cores × duration_hours`;
`memory_gb_hours = max_executors × (executor_memory_bytes / 2^30) ×
duration_hours`; `score = vcpu_hours × vcpu_rate + memory_gb_hours ×
memory_rate`.  A record without an end event (`Incomplete`, `end_ts`
absent by the §3 invariant) is `NotComputable`. -/
def calculatePipelineCost (m : MetricsRecord) (rate : RateEntry)
    (src : RateSource) : Option ResourceEstimateScore :=
  match m.end_ts with
  | none => none
  | some e =>
    let duration_hours : ℚ := ((e - m.start_ts : Int) : ℚ) / 3600
    let vcpu_hours : ℚ := (m.max_executors : ℚ) * (m.executor_cores : ℚ) * duration_hours
    let memory_gb_hours : ℚ :=
      (m.max_executors : ℚ) * ((m.executor_memory_bytes : ℚ) / 2 ^ 30) * duration_hours
    some ⟨vcpu_hours * rate.vcpu_rate + memory_gb_hours * rate.memory_rate,
      vcpu_hours, memory_gb_hours, src⟩

/-- The numeric score of a record, `0` when not computable. -/
def pipelineScore (m : MetricsRecord) (rate : RateEntry) (src : RateSource) : ℚ :=
  match calculatePipelineCost m rate src with
  | some s => s.score
  | none => 0

/-- The §8 example record: duration one hour, two executors of four cores
and 8 GiB each. -/
def exampleRecord : MetricsRecord :=
  ⟨"app-1", "pipe", 0, some 3600, 4, 8 * 2 ^ 30, 2, true, Completeness.Complete⟩

/-- The §8 example rates: `vcpu_rate = 0.05`, `memory_rate = 0.01`. -/
def exampleRate : RateEntry := ⟨1 / 20, 1 / 100⟩

/-- Claim C5: for every `Complete` record the estimator returns
`score = vcpu_hours × vcpu_rate + memory_gb_hours × memory_rate` with
`vcpu_hours = max_executors × executor_cores × duration_hours` and
`memory_gb_hours = max_executors × (executor_memory_bytes / 2^30) ×
duration_hours`; at the §8 instance it yields `vcpu_hours = 8`,
`memory_gb_hours = 16`, `score = 0.56`. -/
theorem calculatePipelineCost_formula (m : MetricsRecord) (rate : RateEntry)
    (src : RateSource) (e : Int) (h : m.end_ts = some e) :
    (calculatePipelineCost m rate src =
        some
          ⟨(m.max_executors : ℚ) * (m.executor_cores : ℚ) * (((e - m.start_ts : Int) : ℚ) / 3600)
              * rate.vcpu_rate
            + (m.max_executors : ℚ) * ((m.executor_memory_bytes : ℚ) / 2 ^ 30)
              * (((e - m.start_ts : Int) : ℚ) / 3600) * rate.memory_rate,
            (m.max_executors : ℚ) * (m.executor_cores : ℚ) * (((e - m.start_ts : Int) : ℚ) / 3600),
            (m.max_executors : ℚ) * ((m.executor_memory_bytes : ℚ) / 2 ^ 30)
              * (((e - m.start_ts : Int) : ℚ) / 3600),
            src⟩)
      ∧ calculatePipelineCost exampleRecord exampleRate RateSource.Static
          = some ⟨14 / 25, 8, 16, RateSource.Static⟩ := by
  constructor
  · simp [calculatePipelineCost, h]
  · norm_num [calculatePipelineCost, exampleRecord, exampleRate]

/-- Witness for C5 at the §8 example record. -/
theorem calculatePipelineCost_formula_witness :
    (exampleRecord.end_ts = some 3600)
      ∧ calculatePipelineCost exampleRecord exampleRate RateSource.Static
          = some ⟨14 / 25, 8, 16, RateSource.Static⟩ :=
  ⟨rfl, (calculatePipelineCost_formula exampleRecord exampleRate RateSource.Static
    3600 rfl).2⟩

/-- Claim C8: with the rate table fixed (non-negative rates) the score is
monotonically non-decreasing separately in run duration, executor core
count, max executor count, and executor memory size. -/
theorem pipelineScore_monotone (rate : RateEntry) (src : RateSource)
    (hv : 0 ≤ rate.vcpu_rate) (hm : 0 ≤ rate.memory_rate)
    (i n : String) (dyn : Bool) (s e e' : Int) (hse : s ≤ e) (hee : e ≤ e')
    (c c' x x' b b' : Nat) (hc : c ≤ c') (hx : x ≤ x') (hb : b ≤ b') :
    pipelineScore ⟨i, n, s, some e, c, b, x, dyn, Completeness.Complete⟩ rate src
        ≤ pipelineScore ⟨i, n, s, some e', c, b, x, dyn, Completeness.Complete⟩ rate src
      ∧ pipelineScore ⟨i, n, s, some e, c, b, x, dyn, Completeness.Complete⟩ rate src
          ≤ pipelineScore ⟨i, n, s, some e, c', b, x, dyn, Completeness.Complete⟩ rate src
      ∧ pipelineScore ⟨i, n, s, some e, c, b, x, dyn, Completeness.Complete⟩ rate src
          ≤ pipelineScore ⟨i, n, s, some e, c, b, x', dyn, Completeness.Complete⟩ rate src
      ∧ pipelineScore ⟨i, n, s, some e, c, b, x, dyn, Completeness.Complete⟩ rate src
          ≤ pipelineScore ⟨i, n, s, some e, c, b', x, dyn, Completeness.Complete⟩ rate src := by
  have hd : (0 : ℚ) ≤ ((e - s : Int) : ℚ) / 3600 := by
    apply div_nonneg _ (by norm_num)
    have h0 : (0 : Int) ≤ e - s := by omega
    exact_mod_cast h0
  have hd' : ((e - s : Int) : ℚ) / 3600 ≤ ((e' - s : Int) : ℚ) / 3600 := by
    have h0 : ((e - s : Int) : ℚ) ≤ ((e' - s : Int) : ℚ) := by
      have h1 : (e - s : Int) ≤ (e' - s : Int) := by omega
      exact_mod_cast h1
    exact (div_le_div_iff_of_pos_right (by norm_num : (0 : ℚ) < 3600)).mpr h0
  have hcq : ((c : ℚ)) ≤ (c' : ℚ) := by exact_mod_cast hc
  have hxq : ((x : ℚ)) ≤ (x' : ℚ) := by exact_mod_cast hx
  have hbq : ((b : ℚ)) ≤ (b' : ℚ) := by exact_mod_cast hb
  refine ⟨?_, ?_, ?_, ?_⟩ <;>
    simp only [pipelineScore, calculatePipelineCost] <;>
    gcongr

/-- Witness for C8 at concrete rates `0.05`/`0.01` and single-field bumps. -/
theorem pipelineScore_monotone_witness :
    pipelineScore ⟨"a", "p", 0, some 3600, 4, 8 * 2 ^ 30, 2, true, Completeness.Complete⟩
          ⟨1 / 20, 1 / 100⟩ RateSource.Static
        ≤ pipelineScore ⟨"a", "p", 0, some 7200, 4, 8 * 2 ^ 30, 2, true, Completeness.Complete⟩
            ⟨1 / 20, 1 / 100⟩ RateSource.Static
      ∧ pipelineScore ⟨"a", "p", 0, some 3600, 4, 8 * 2 ^ 30, 2, true, Completeness.Complete⟩
            ⟨1 / 20, 1 / 100⟩ RateSource.Static
          ≤ pipelineScore ⟨"a", "p", 0, some 3600, 5, 8 * 2 ^ 30, 2, true, Completeness.Complete⟩
              ⟨1 / 20, 1 / 100⟩ RateSource.Static
      ∧ pipelineScore ⟨"a", "p", 0, some 3600, 4, 8 * 2 ^ 30, 2, true, Completeness.Complete⟩
            ⟨1 / 20, 1 / 100⟩ RateSource.Static
          ≤ pipelineScore ⟨"a", "p", 0, some 3600, 4, 8 * 2 ^ 30, 3, true, Completeness.Complete⟩
              ⟨1 / 20, 1 / 100⟩ RateSource.Static
      ∧ pipelineScore ⟨"a", "p", 0, some 3600, 4, 8 * 2 ^ 30, 2, true, Completeness.Complete⟩
            ⟨1 / 20, 1 / 100⟩ RateSource.Static
          ≤ pipelineScore ⟨"a", "p", 0, some 3600, 4, 16 * 2 ^ 30, 2, true, Completeness.Complete⟩
              ⟨1 / 20, 1 / 100⟩ RateSource.Static :=
  pipelineScore_monotone ⟨1 / 20, 1 / 100⟩ RateSource.Static (by norm_num) (by norm_num)
    "a" "p" true 0 3600 7200 (by norm_num) (by norm_num)
    4 5 2 3 (8 * 2 ^ 30) (16 * 2 ^ 30) (by norm_num) (by norm_num) (by norm_num)

/-! ### Run reconciliation (claim C6)

The reconciler filters by app name, deduplicates reruns by `app_id` and
re-sorts (spec §4.3).  The deduplication step is modelled here: within one
`app_id` group the entry with the later `end_ts` survives, and a missing
`end_ts` (an `Incomplete` run) loses to any present one. -/

/-- Modelled from the spec: strict "ends later" comparison on optional end
timestamps — an absent end timestamp (an `Incomplete` run) is the bottom
element. -/
def endLt (u v : Option Int) : Bool :=
  match u, v with
  | none, some _ => true
  | some a, some b => decide (a < b)
  | _, _ => false

/-- `laterEnd x y`: run `x` ends strictly later than run `y`. -/
def laterEnd (x y : MetricsRecord) : Bool := endLt y.end_ts x.end_ts

/-- Modelled from the spec: the surviving entry of one `app_id` group —
fold keeping the entry with the later `end_ts`. -/
def bestEntry (e : MetricsRecord) (grp : List MetricsRecord) : MetricsRecord :=
  grp.foldl (fun acc x => if laterEnd x acc then x else acc) e

/-- Modelled from the spec: deduplication — entries sharing the same
`app_id` collapse to the one with the later `end_ts` (spec §4.3;
`parser.py` is missing from the sources). -/
def dedupRuns : List MetricsRecord → List MetricsRecord
  | [] => []
  | e :: rest =>
    bestEntry e (rest.filter (fun x => x.app_id == e.app_id))
      :: dedupRuns (rest.filter (fun x => !(x.app_id == e.app_id)))
termination_by l => l.length
decreasing_by
  simp_wf
  have hle := List.length_filter_le (fun x => !(x.app_id == e.app_id)) rest
  omega

theorem endLt_irrefl (u : Option Int) : endLt u u = false := by
  cases u <;> simp [endLt]

theorem endLt_trans (u v w : Option Int) (h1 : endLt u v = true)
    (h2 : endLt v w = true) : endLt u w = true := by
  cases u <;> cases v <;> cases w <;> simp [endLt] at * <;> omega

theorem endLt_of_lt_of_not_lt (u v w : Option Int) (h1 : endLt u v = true)
    (h2 : endLt w v = false) : endLt u w = true := by
  cases u <;> cases v <;> cases w <;> simp [endLt] at * <;> omega

theorem endLt_total_of_ne (u v : Option Int) (h : u ≠ v) :
    endLt u v = true ∨ endLt v u = true := by
  cases u <;> cases v <;> simp [endLt] at * <;> omega

theorem bestEntry_cons (e x : MetricsRecord) (t : List MetricsRecord) :
    bestEntry e (x :: t) = bestEntry (if laterEnd x e then x else e) t := rfl

theorem bestEntry_mem :
    ∀ (grp : List MetricsRecord) (e : MetricsRecord), bestEntry e grp ∈ e :: grp := by
  intro grp
  induction grp with
  | nil => intro e; simp [bestEntry]
  | cons x t ih =>
    intro e
    rw [bestEntry_cons]
    rcases List.mem_cons.mp (ih (if laterEnd x e then x else e)) with h | h
    · rw [h]
      by_cases hc : laterEnd x e = true
      · simp [hc]
      · simp [hc]
    · exact List.mem_cons_of_mem _ (List.mem_cons_of_mem _ h)

theorem bestEntry_not_lt :
    ∀ (grp : List MetricsRecord) (e : MetricsRecord), ∀ y ∈ e :: grp,
      endLt (bestEntry e grp).end_ts y.end_ts = false := by
  intro grp
  induction grp with
  | nil =>
    intro e y hy
    have hy' : y = e := by simpa using hy
    subst hy'
    simpa [bestEntry] using endLt_irrefl y.end_ts
  | cons x t ih =>
    intro e y hy
    rw [bestEntry_cons]
    by_cases hc : laterEnd x e = true
    · -- the head `e` is discarded in favour of `x`
      rcases List.mem_cons.mp hy with rfl | hy'
      · -- y = e: the survivor is at least x > e
        have hx : endLt (bestEntry x t).end_ts x.end_ts = false :=
          ih x x (List.mem_cons_self x t)
        have hex : endLt y.end_ts x.end_ts = true := by
          simpa [laterEnd] using hc
        rw [if_pos hc]
        by_contra hcon
        rw [Bool.not_eq_false] at hcon
        have := endLt_trans _ _ _ hcon hex
        rw [this] at hx
        cases hx
      · rcases List.mem_cons.mp hy' with rfl | hyt
        · rw [if_pos hc]
          exact ih y y (List.mem_cons_self y t)
        · rw [if_pos hc]
          exact ih x y (List.mem_cons_of_mem x hyt)
    · -- `x` is discarded: it does not end later than `e`
      rcases List.mem_cons.mp hy with rfl | hy'
      · rw [if_neg hc]
        exact ih y y (List.mem_cons_self y t)
      · rcases List.mem_cons.mp hy' with rfl | hyt
        · -- y = x
          rw [if_neg hc]
          have hbe : endLt (bestEntry e t).end_ts e.end_ts = false :=
            ih e e (List.mem_cons_self e t)
          have hex : endLt e.end_ts y.end_ts = false := by
            simpa [laterEnd] using hc
          by_contra hcon
          rw [Bool.not_eq_false] at hcon
          have := endLt_of_lt_of_not_lt _ _ _ hcon hex
          rw [this] at hbe
          cases hbe
        · rw [if_neg hc]
          exact ih e y (List.mem_cons_of_mem e hyt)

theorem bestEntry_app_id (e : MetricsRecord) (grp : List MetricsRecord)
    (h : ∀ g ∈ grp, g.app_id = e.app_id) :
    (bestEntry e grp).app_id = e.app_id := by
  rcases List.mem_cons.mp (bestEntry_mem grp e) with hm | hm
  · rw [hm]
  · exact h _ hm

/-- Within `dedupRuns`, the survivors of one `app_id` group are exactly
the best entry of that group's filter. -/
theorem dedupRuns_filter :
    ∀ (n : Nat) (l : List MetricsRecord), l.length ≤ n → ∀ i : String,
      (dedupRuns l).filter (fun x => x.app_id == i)
        = match l.filter (fun x => x.app_id == i) with
          | [] => []
          | e :: rest => [bestEntry e rest] := by
  intro n
  induction n with
  | zero =>
    intro l hl i
    have hnil : l = [] := List.length_eq_zero.mp (Nat.le_zero.mp hl)
    subst hnil
    simp [dedupRuns]
  | succ n ih =>
    intro l hl i
    cases l with
    | nil => simp [dedupRuns]
    | cons e rest =>
      rw [dedupRuns]
      by_cases hi : e.app_id = i
      · -- the head's group is the group of `i`
        subst hi
        have hgrp : ∀ g ∈ rest.filter (fun x => x.app_id == e.app_id),
            g.app_id = e.app_id := by
          intro g hg
          have := (List.mem_filter.mp hg).2
          simpa using this
        have hbid : (bestEntry e (rest.filter (fun x => x.app_id == e.app_id))).app_id
            = e.app_id := bestEntry_app_id e _ hgrp
        rw [List.filter_cons]
        rw [if_pos (by simp [hbid])]
        have hrest' : (rest.filter (fun x => !(x.app_id == e.app_id))).length ≤ n := by
          have hle := List.length_filter_le (fun x => !(x.app_id == e.app_id)) rest
          simp at hl
          omega
        rw [ih _ hrest' e.app_id]
        have hnone : (rest.filter (fun x => !(x.app_id == e.app_id))).filter
            (fun x => x.app_id == e.app_id) = [] := by
          rw [List.filter_filter]
          apply List.eq_nil_iff_forall_not_mem.mpr
          intro g hg
          have h2 := (List.mem_filter.mp hg).2
          simp at h2
        rw [hnone]
        have hefil : (e :: rest).filter (fun x => x.app_id == e.app_id)
            = e :: rest.filter (fun x => x.app_id == e.app_id) := by
          rw [List.filter_cons, if_pos (by simp)]
        rw [hefil]
      · -- the head belongs to a different group
        have hgrp : ∀ g ∈ rest.filter (fun x => x.app_id == e.app_id),
            g.app_id = e.app_id := by
          intro g hg
          have := (List.mem_filter.mp hg).2
          simpa using this
        have hbid : (bestEntry e (rest.filter (fun x => x.app_id == e.app_id))).app_id
            = e.app_id := bestEntry_app_id e _ hgrp
        rw [List.filter_cons]
        rw [if_neg (by simp [hbid, hi])]
        have hrest' : (rest.filter (fun x => !(x.app_id == e.app_id))).length ≤ n := by
          have hle := List.length_filter_le (fun x => !(x.app_id == e.app_id)) rest
          simp at hl
          omega
        rw [ih _ hrest' i]
        have hsub : (rest.filter (fun x => !(x.app_id == e.app_id))).filter
            (fun x => x.app_id == i) = rest.filter (fun x => x.app_id == i) := by
          rw [List.filter_filter]
          apply List.filter_congr
          intro g _
          by_cases hg : g.app_id = i
          · have hne : ¬ i = e.app_id := fun h => hi h.symm
            simp [hg, hne]
          · simp [hg]
        rw [hsub]
        have hefil : (e :: rest).filter (fun x => x.app_id == i)
            = rest.filter (fun x => x.app_id == i) := by
          rw [List.filter_cons, if_neg (by simp [hi])]
        rw [hefil]

/-- Claim C6: when an input contains two entries sharing one `app_id`
(with no third entry of that `app_id`) whose `end_ts` differ, exactly one
of them survives deduplication — the one with the later `end_ts`; in
particular an `Incomplete` entry (absent `end_ts`) loses to a `Complete`
one. -/
theorem dedupRuns_keeps_later_end (l : List MetricsRecord) (a b : MetricsRecord)
    (ha : a ∈ l) (hb : b ∈ l) (hid : a.app_id = b.app_id)
    (hends : a.end_ts ≠ b.end_ts)
    (honly : ∀ x ∈ l, x.app_id = a.app_id → x = a ∨ x = b) :
    ((dedupRuns l).filter (fun x => x.app_id == a.app_id)
        = [if laterEnd b a then b else a])
      ∧ (a.end_ts = none → ∀ eb : Int, b.end_ts = some eb →
          (dedupRuns l).filter (fun x => x.app_id == a.app_id) = [b]) := by
  have hmema : a ∈ l.filter (fun x => x.app_id == a.app_id) :=
    List.mem_filter.mpr ⟨ha, by simp⟩
  have hmemb : b ∈ l.filter (fun x => x.app_id == a.app_id) :=
    List.mem_filter.mpr ⟨hb, by simp [hid]⟩
  have hchar := dedupRuns_filter l.length l (le_refl _) a.app_id
  have hmain : (dedupRuns l).filter (fun x => x.app_id == a.app_id)
      = [if laterEnd b a then b else a] := by
    cases hg : l.filter (fun x => x.app_id == a.app_id) with
    | nil =>
      rw [hg] at hmema
      cases hmema
    | cons e rest =>
      rw [hg] at hchar hmema hmemb
      rw [hchar]
      show [bestEntry e rest] = [if laterEnd b a then b else a]
      -- the survivor is one of the two entries and dominates both
      have hsmem : bestEntry e rest ∈ e :: rest := bestEntry_mem rest e
      have hm : bestEntry e rest ∈ l.filter (fun x => x.app_id == a.app_id) := by
        rw [hg]
        exact hsmem
      have hsl : bestEntry e rest ∈ l := (List.mem_filter.mp hm).1
      have hsid : (bestEntry e rest).app_id = a.app_id := by
        have hf := (List.mem_filter.mp hm).2
        simpa using hf
      have hsab : bestEntry e rest = a ∨ bestEntry e rest = b :=
        honly _ hsl hsid
      have hnlta : endLt (bestEntry e rest).end_ts a.end_ts = false :=
        bestEntry_not_lt rest e a hmema
      have hnltb : endLt (bestEntry e rest).end_ts b.end_ts = false :=
        bestEntry_not_lt rest e b hmemb
      rcases hsab with hs | hs
      · -- the survivor is `a`, so `b` does not end later
        rw [hs] at hnltb
        have hiff : laterEnd b a = false := by
          simpa [laterEnd] using hnltb
        rw [hs, hiff]
        simp
      · -- the survivor is `b`, so since the ends differ `b` ends later
        rw [hs] at hnlta
        have hlt : endLt a.end_ts b.end_ts = true := by
          rcases endLt_total_of_ne a.end_ts b.end_ts hends with h | h
          · exact h
          · rw [h] at hnlta
            cases hnlta
        have hiff : laterEnd b a = true := by
          simpa [laterEnd] using hlt
        rw [hs, hiff]
        simp
  refine ⟨hmain, ?_⟩
  intro hna eb hsb
  rw [hmain]
  have hlater : laterEnd b a = true := by
    simp [laterEnd, hna, hsb, endLt]
  rw [hlater]
  simp

/-- Witness for C6: two runs of the same app, the second ending later. -/
theorem dedupRuns_keeps_later_end_witness :
    ((⟨"app-1", "p", 0, some 100, 1, 0, 1, false, Completeness.Complete⟩ : MetricsRecord)
        ∈ [(⟨"app-1", "p", 0, some 100, 1, 0, 1, false, Completeness.Complete⟩ : MetricsRecord),
            ⟨"app-1", "p", 50, some 200, 1, 0, 1, false, Completeness.Complete⟩])
      ∧ (((dedupRuns
            [(⟨"app-1", "p", 0, some 100, 1, 0, 1, false, Completeness.Complete⟩ : MetricsRecord),
              ⟨"app-1", "p", 50, some 200, 1, 0, 1, false, Completeness.Complete⟩]).filter
              (fun x => x.app_id == "app-1")
            = [if laterEnd
                  ⟨"app-1", "p", 50, some 200, 1, 0, 1, false, Completeness.Complete⟩
                  ⟨"app-1", "p", 0, some 100, 1, 0, 1, false, Completeness.Complete⟩
                then (⟨"app-1", "p", 50, some 200, 1, 0, 1, false, Completeness.Complete⟩ : MetricsRecord)
                else ⟨"app-1", "p", 0, some 100, 1, 0, 1, false, Completeness.Complete⟩])
          ∧ ((⟨"app-1", "p", 0, some 100, 1, 0, 1, false, Completeness.Complete⟩ : MetricsRecord).end_ts = none →
              ∀ eb : Int,
                (⟨"app-1", "p", 50, some 200, 1, 0, 1, false, Completeness.Complete⟩ : MetricsRecord).end_ts = some eb →
                (dedupRuns
                  [(⟨"app-1", "p", 0, some 100, 1, 0, 1, false, Completeness.Complete⟩ : MetricsRecord),
                    ⟨"app-1", "p", 50, some 200, 1, 0, 1, false, Completeness.Complete⟩]).filter
                    (fun x => x.app_id == "app-1")
                  = [⟨"app-1", "p", 50, some 200, 1, 0, 1, false, Completeness.Complete⟩])) :=
  ⟨by simp,
    dedupRuns_keeps_later_end
      [⟨"app-1", "p", 0, some 100, 1, 0, 1, false, Completeness.Complete⟩,
        ⟨"app-1", "p", 50, some 200, 1, 0, 1, false, Completeness.Complete⟩]
      ⟨"app-1", "p", 0, some 100, 1, 0, 1, false, Completeness.Complete⟩
      ⟨"app-1", "p", 50, some 200, 1, 0, 1, false, Completeness.Complete⟩
      (by simp) (by simp) rfl (by simp) (by decide)⟩

end RdsaUtils
